import Mathlib

/-!
Shallow embedding of the ETL pipeline of `src/etl.py` (a pandas-based batch
job) and proofs about its transform stage: `clean_events`, `join_and_filter`
and `create_daily_summary`.

Tables are modelled after pandas `DataFrame`s: a list of column names plus
rows whose values are aligned positionally with the columns.  `NaN`, `NaT`
and `None` are all modelled by `Value.null`.  `pd.to_datetime(..., errors =
"coerce")` is modelled by an executable tolerant parser (`parseValue`):
strings are parsed as ISO-style dates, integers are nanoseconds since the
epoch, date-time and date values pass through, and anything unparseable
coerces to null.  Pandas `groupby(sort=True)` ordering is abstracted to
first-occurrence order of the group keys; no property proved here depends on
the order of summary rows (the spec leaves it unspecified).
-/

namespace Etl

/-- A calendar date, as produced by the pandas `.dt.date` accessor. -/
structure CalDate where
  year : Int
  month : Nat
  day : Nat
deriving DecidableEq, Repr

/-- A date-time value, as produced by `pd.to_datetime`.  Time-zone offsets
are not tracked; the pipeline never uses them. -/
structure DateTime where
  year : Int
  month : Nat
  day : Nat
  hour : Nat
  minute : Nat
  second : Nat
deriving DecidableEq, Repr

/-- Number of days in a month (Gregorian, with leap years). -/
def daysInMonth (y : Int) (m : Nat) : Nat :=
  if m = 2 then (if y % 4 = 0 ∧ (y % 100 ≠ 0 ∨ y % 400 = 0) then 29 else 28)
  else if m = 4 ∨ m = 6 ∨ m = 9 ∨ m = 11 then 30 else 31

/-- Convert a count of days since 1970-01-01 to a Gregorian (year, month,
day), following the standard civil-from-days algorithm. -/
def civilFromDays (z0 : Int) : Int × Nat × Nat :=
  let z := z0 + 719468
  let era : Int := z / 146097
  let doe : Nat := (z % 146097).toNat
  let yoe : Nat := (doe - doe / 1460 + doe / 36524 - doe / 146096) / 365
  let y : Int := (yoe : Int) + era * 400
  let doy : Nat := doe - (365 * yoe + yoe / 4 - yoe / 100)
  let mp : Nat := (5 * doy + 2) / 153
  let d : Nat := doy - (153 * mp + 2) / 5 + 1
  let m : Nat := if mp < 10 then mp + 3 else mp - 9
  (if m ≤ 2 then y + 1 else y, m, d)

/-- Interpret an integer as nanoseconds since the epoch, as
`pd.to_datetime` does for integer input (default unit `ns`). -/
def epochNanoToDateTime (n : Int) : DateTime :=
  let day : Int := n / 86400000000000
  let rem : Nat := (n % 86400000000000).toNat
  let sec : Nat := rem / 1000000000
  match civilFromDays day with
  | (y, m, d) => ⟨y, m, d, sec / 3600, sec / 60 % 60, sec % 60⟩

/-- Split a character list on a separator character. -/
def splitOnCharAux (sep : Char) : List Char → List Char → List (List Char)
  | [], acc => [acc.reverse]
  | c :: rest, acc =>
    if c = sep then acc.reverse :: splitOnCharAux sep rest []
    else splitOnCharAux sep rest (c :: acc)

/-- Split a character list on a separator character. -/
def splitOnChar (sep : Char) (l : List Char) : List (List Char) :=
  splitOnCharAux sep l []

/-- Parse a nonempty all-digit character list as a number. -/
def digitsToNat? (l : List Char) : Option Nat :=
  if l = [] then none
  else l.foldl (fun acc c =>
    acc.bind (fun n => if c.isDigit then some (10 * n + (c.toNat - 48)) else none))
    (some 0)

/-- Parse a `YYYY-MM-DD` date string. -/
def parseDatePart (s : List Char) : Option (Int × Nat × Nat) :=
  match splitOnChar '-' s with
  | [y, m, d] =>
    match digitsToNat? y, digitsToNat? m, digitsToNat? d with
    | some yn, some mn, some dn =>
      if 1 ≤ mn ∧ mn ≤ 12 ∧ 1 ≤ dn ∧ dn ≤ daysInMonth (yn : Int) mn then
        some ((yn : Int), mn, dn)
      else none
    | _, _, _ => none
  | _ => none

/-- Parse an `HH:MM:SS` time string. -/
def parseTimePart (s : List Char) : Option (Nat × Nat × Nat) :=
  match splitOnChar ':' s with
  | [hh, mm, ss] =>
    match digitsToNat? hh, digitsToNat? mm, digitsToNat? ss with
    | some h, some mi, some sec =>
      if h ≤ 23 ∧ mi ≤ 59 ∧ sec ≤ 59 then some (h, mi, sec) else none
    | _, _, _ => none
  | _ => none

/-- Tolerant timestamp parser modelling the string case of
`pd.to_datetime(..., errors="coerce")`: an ISO-style date with an optional
`T`-separated time and an optional trailing `Z`. -/
def parseTimestamp (s0 : String) : Option DateTime :=
  let l0 := s0.data
  let l := if l0.getLast? = some 'Z' then l0.dropLast else l0
  match splitOnChar 'T' l with
  | [d] => (parseDatePart d).map (fun p => ⟨p.1, p.2.1, p.2.2, 0, 0, 0⟩)
  | [d, t] =>
    match parseDatePart d, parseTimePart t with
    | some p, some q => some ⟨p.1, p.2.1, p.2.2, q.1, q.2.1, q.2.2⟩
    | _, _ => none
  | _ => none

/-- A cell value of a table. -/
inductive Value where
  | null
  | int (n : Int)
  | str (s : String)
  | dt (d : DateTime)
  | date (d : CalDate)
deriving DecidableEq, Repr

/-- Elementwise behaviour of `pd.to_datetime(..., errors="coerce")`. -/
def parseValue : Value → Value
  | .null => .null
  | .int n => .dt (epochNanoToDateTime n)
  | .str s =>
    match parseTimestamp s with
    | some d => .dt d
    | none => .null
  | .dt d => .dt d
  | .date d => .dt ⟨d.year, d.month, d.day, 0, 0, 0⟩

/-- Elementwise behaviour of the `.dt.date` accessor (`NaT` maps to `NaT`). -/
def dateValue : Value → Value
  | .dt d => .date ⟨d.year, d.month, d.day⟩
  | _ => .null

/-- Whether a value is a (successfully parsed) date-time. -/
def Value.isDt : Value → Bool
  | .dt _ => true
  | _ => false

/-- Whether a value may live in a `datetime64` column (`NaT` is allowed). -/
def Value.isDtOrNull : Value → Bool
  | .dt _ => true
  | .null => true
  | _ => false

instance exceptDecEq {ε α : Type} [DecidableEq ε] [DecidableEq α] :
    DecidableEq (Except ε α) := fun a b =>
  match a, b with
  | .error e, .error f => decidable_of_iff (e = f) (by simp)
  | .error _, .ok _ => isFalse (by simp)
  | .ok _, .error _ => isFalse (by simp)
  | .ok x, .ok y => decidable_of_iff (x = y) (by simp)

abbrev Row := List Value

/-- `df["c"]` for one row: the value aligned with the first column named `c`
(null when the column is absent, as a missing cell). -/
def getVal (cols : List String) (r : Row) (c : String) : Value :=
  ((cols.zip r).lookup c).getD Value.null

/-- Apply a column-name-dependent function to each cell of a row. -/
def mapRow (f : String → Value → Value) : List String → Row → Row
  | _, [] => []
  | [], _ :: _ => []
  | c :: cs, v :: vs => f c v :: mapRow f cs vs

/-- A pandas `DataFrame`: named columns and positionally aligned rows. -/
structure Table where
  cols : List String
  rows : List Row
deriving DecidableEq, Repr

/-- Every row has exactly one cell per column. -/
abbrev Table.WF (t : Table) : Prop := ∀ r ∈ t.rows, r.length = t.cols.length

/-- `drop_duplicates` keep-first scan: keep an element when its key has not
been seen before. -/
def dedupByKeyAux {α κ : Type} (key : α → κ) [DecidableEq κ] :
    List κ → List α → List α
  | _, [] => []
  | seen, a :: l =>
    if key a ∈ seen then dedupByKeyAux key seen l
    else a :: dedupByKeyAux key (key a :: seen) l

/-- `drop_duplicates(subset, keep="first")` on a list, keyed by `key`. -/
def dedupByKey {α κ : Type} (key : α → κ) [DecidableEq κ] (l : List α) : List α :=
  dedupByKeyAux key [] l

/-- `c.startswith("metadata.")` of the source, on the character list of the
column name. -/
def startsWithMeta (c : String) : Bool :=
  "metadata.".data.isPrefixOf c.data

/-- The deduplication key of `clean_events`: the row restricted to the
identity columns (those whose name does not start with `metadata.`). -/
def dedupeKey (cols : List String) (r : Row) : List Value :=
  ((cols.zip r).filter (fun p => !(startsWithMeta p.1))).map Prod.snd

/-- `pd.to_datetime` applied to the `timestamp` column of one row. -/
def parseTsRow (cols : List String) (r : Row) : Row :=
  mapRow (fun c v => if c = "timestamp" then parseValue v else v) cols r

/-- The five diagnostic counts printed by `clean_events`. -/
structure CleanCounts where
  initial : Nat
  missingUser : Nat
  invalidTs : Nat
  deduped : Nat
  final : Nat
deriving DecidableEq, Repr

/-- Rows surviving `df.dropna(subset=["user_id"])`. -/
def keptUid (df : Table) : List Row :=
  df.rows.filter (fun r => decide (getVal df.cols r "user_id" ≠ Value.null))

/-- Rows after `df["timestamp"] = pd.to_datetime(df["timestamp"], errors="coerce")`. -/
def parsedRows (df : Table) : List Row :=
  (keptUid df).map (parseTsRow df.cols)

/-- Rows surviving `df.dropna(subset=["timestamp"])`. -/
def keptTs (df : Table) : List Row :=
  (parsedRows df).filter (fun r => decide (getVal df.cols r "timestamp" ≠ Value.null))

/-- Rows after `df.drop_duplicates(subset=dedupe_cols)`. -/
def cleanRows (df : Table) : List Row :=
  dedupByKey (dedupeKey df.cols) (keptTs df)

/-- `clean_events` of `src/etl.py`: drop null `user_id` rows, coerce
`timestamp` and drop rows where it fails to parse, deduplicate on the
identity columns.  Accessing a missing `user_id` or `timestamp` column is a
`KeyError`, modelled as `Except.error`.  Also returns the five printed
counts. -/
def clean_events (df : Table) : Except String (Table × CleanCounts) :=
  if "user_id" ∈ df.cols then
    if "timestamp" ∈ df.cols then
      .ok (⟨df.cols, cleanRows df⟩,
        ⟨df.rows.length,
         (df.rows.filter (fun r => decide (getVal df.cols r "user_id" = Value.null))).length,
         ((parsedRows df).filter (fun r => decide (getVal df.cols r "timestamp" = Value.null))).length,
         (keptTs df).length - (cleanRows df).length,
         (cleanRows df).length⟩)
    else .error "KeyError: timestamp"
  else .error "KeyError: user_id"

/-- A user row with the join-key column removed, as pandas `merge` keeps a
single `user_id` column (taken from the left side). -/
def dropUserCol (ucols : List String) (u : Row) : Row :=
  ((ucols.zip u).filter (fun p => decide (p.1 ≠ "user_id"))).map Prod.snd

/-- Columns of `events.merge(users, on="user_id", how="inner")`: left columns
then right columns minus the key, with default `_x`/`_y` suffixes on
colliding non-key names. -/
def mergedCols (ecols ucols : List String) : List String :=
  ecols.map (fun c => if c ≠ "user_id" ∧ c ∈ ucols then c ++ "_x" else c) ++
  (ucols.filter (fun c => decide (c ≠ "user_id"))).map
    (fun c => if c ∈ ecols then c ++ "_y" else c)

/-- Rows of the inner merge on `user_id`: for each event row in order, one
combined row per user row with an equal `user_id`. -/
def joinedRows (events users : Table) : List Row :=
  events.rows.flatMap (fun e =>
    (users.rows.filter (fun u =>
        decide (getVal users.cols u "user_id" = getVal events.cols e "user_id"))).map
      (fun u => e ++ dropUserCol users.cols u))

/-- Joined rows surviving the `joined["country"] == "US"` filter. -/
def usKept (events users : Table) : List Row :=
  (joinedRows events users).filter
    (fun j => decide (getVal (mergedCols events.cols users.cols) j "country" = Value.str "US"))

/-- `pd.to_datetime` applied to the `signup_date` column of one row. -/
def reparseSignupRow (cols : List String) (r : Row) : Row :=
  mapRow (fun c v => if c = "signup_date" then parseValue v else v) cols r

/-- `join_and_filter` of `src/etl.py`: inner-join events to users on
`user_id`, keep only rows whose `country` is exactly `"US"`, then coerce
`signup_date` to date-time (unparseable values become null, no row is
dropped).  Also returns the printed count of rows removed by the filter.
A missing `user_id` column makes the merge fail; a missing `country` or
`signup_date` column in the merged frame is a `KeyError`. -/
def join_and_filter (events users : Table) : Except String (Table × Nat) :=
  if "user_id" ∈ events.cols then
    if "user_id" ∈ users.cols then
      if "country" ∈ mergedCols events.cols users.cols then
        if "signup_date" ∈ mergedCols events.cols users.cols then
          .ok (⟨mergedCols events.cols users.cols,
                (usKept events users).map (reparseSignupRow (mergedCols events.cols users.cols))⟩,
               (joinedRows events users).length - (usKept events users).length)
        else .error "KeyError: signup_date"
      else .error "KeyError: country"
    else .error "MergeError: user_id"
  else .error "MergeError: user_id"

/-- Column list after the assignment `df["event_date"] = ...`: overwritten in
place when present, appended otherwise. -/
def setColCols (cols : List String) (c : String) : List String :=
  if c ∈ cols then cols else cols ++ [c]

/-- One row after the assignment `df["c"] = w`. -/
def setRowFn (cols : List String) (c : String) (w : Value) (r : Row) : Row :=
  if c ∈ cols then mapRow (fun c' v => if c' = c then w else v) cols r else r ++ [w]

/-- The in-place mutation `df["event_date"] = df["timestamp"].dt.date`. -/
def withEventDate (df : Table) : Table :=
  ⟨setColCols df.cols "event_date",
   df.rows.map (fun r => setRowFn df.cols "event_date" (dateValue (getVal df.cols r "timestamp")) r)⟩

/-- The `(event_date, user_id)` key of one row. -/
def summaryKey (cols : List String) (r : Row) : Value × Value :=
  (getVal cols r "event_date", getVal cols r "user_id")

/-- The group keys of `df.groupby(["event_date", "user_id"])`: one key per
row, rows with a null key component dropped (pandas `groupby` default
`dropna=True`). -/
def groupKeys (df2 : Table) : List (Value × Value) :=
  (df2.rows.filter (fun r =>
      decide (getVal df2.cols r "event_date" ≠ Value.null ∧
              getVal df2.cols r "user_id" ≠ Value.null))).map (summaryKey df2.cols)

def summaryCols : List String := ["event_date", "user_id", "event_count"]

/-- `create_daily_summary` of `src/etl.py`.  It first mutates its argument,
adding the `event_date` column in place, then groups by
`(event_date, user_id)` and emits one row per group with the group size as
`event_count`.  The mutated input is returned alongside the summary to make
the in-place effect explicit.  The `.dt` accessor requires a `datetime64`
`timestamp` column (date-times or `NaT` only); `groupby` requires the
`user_id` column. -/
def create_daily_summary (df : Table) : Except String (Table × Table) :=
  if "timestamp" ∈ df.cols then
    if df.rows.all (fun r => (getVal df.cols r "timestamp").isDtOrNull) then
      if "user_id" ∈ (withEventDate df).cols then
        .ok (withEventDate df,
          ⟨summaryCols,
           (dedupByKey id (groupKeys (withEventDate df))).map
             (fun k => [k.1, k.2, Value.int ((groupKeys (withEventDate df)).count k)])⟩)
      else .error "KeyError: user_id"
    else .error "AttributeError: dt accessor on non-datetime column"
  else .error "KeyError: timestamp"

/-- The transform-and-write sequence of `main`: clean, enrich, aggregate.
In the source, `create_daily_summary` mutates `enriched` in place and `main`
writes `enriched` afterwards, so the persisted enriched artifact is the
mutated table; the pair returned here is (written enriched table, written
daily summary). -/
def etlTransform (events users : Table) : Except String (Table × Table) :=
  match clean_events events with
  | .error e => .error e
  | .ok (clean, _) =>
    match join_and_filter clean users with
    | .error e => .error e
    | .ok (enriched, _) =>
      match create_daily_summary enriched with
      | .error e => .error e
      | .ok (enrichedMut, daily) => .ok (enrichedMut, daily)

/-- Enrichment as worded by the spec (§3, §4.2): form the inner join of
events and users on `user_id` (all pairs of rows with equal keys, combined
with the user key column removed), restrict to exactly the rows whose
`country` equals `"US"`, and normalize `signup_date` to a date-time value
(unparseable values become null). -/
def enrichSpecRows (events users : Table) : List Row :=
  let cols := mergedCols events.cols users.cols
  let pairs := events.rows.flatMap (fun e => users.rows.map (fun u => (e, u)))
  let joined := (pairs.filter (fun p =>
      decide (getVal events.cols p.1 "user_id" = getVal users.cols p.2 "user_id"))).map
    (fun p => p.1 ++ dropUserCol users.cols p.2)
  (joined.filter (fun j => decide (getVal cols j "country" = Value.str "US"))).map
    (reparseSignupRow cols)

/-! ### Basic lemmas about rows and cell access -/

theorem getVal_mapRow (f : String → Value → Value) (cols : List String) (r : Row)
    (c : String) :
    getVal cols (mapRow f cols r) c = (((cols.zip r).lookup c).map (f c)).getD Value.null := by
  induction cols generalizing r with
  | nil => cases r <;> simp [getVal, mapRow]
  | cons c' cs ih =>
    cases r with
    | nil => simp [getVal, mapRow]
    | cons v vs =>
      by_cases h : c = c'
      · subst h
        simp [getVal, mapRow, List.lookup]
      · have hb : (c == c') = false := by simpa using h
        simpa [getVal, mapRow, List.lookup, hb] using ih vs

theorem getVal_mapRow_target (g : Value → Value) (hg : g Value.null = Value.null)
    (cols : List String) (r : Row) (c : String) :
    getVal cols (mapRow (fun c' v => if c' = c then g v else v) cols r) c
      = g (getVal cols r c) := by
  rw [getVal_mapRow]
  cases h : (cols.zip r).lookup c <;> simp [getVal, h, hg]

theorem getVal_mapRow_other (g : Value → Value) (cols : List String) (r : Row)
    (c c₀ : String) (hne : c₀ ≠ c) :
    getVal cols (mapRow (fun c' v => if c' = c then g v else v) cols r) c₀
      = getVal cols r c₀ := by
  rw [getVal_mapRow]
  cases h : (cols.zip r).lookup c₀ <;> simp [getVal, h, hne]

theorem mapRow_mapRow (f : String → Value → Value)
    (hf : ∀ c v, f c (f c v) = f c v) (cols : List String) (r : Row) :
    mapRow f cols (mapRow f cols r) = mapRow f cols r := by
  induction cols generalizing r with
  | nil => cases r <;> simp [mapRow]
  | cons c cs ih =>
    cases r with
    | nil => simp [mapRow]
    | cons v vs => simp [mapRow, hf, ih]

/-! ### Lemmas about the tolerant parser -/

theorem parseValue_null : parseValue Value.null = Value.null := rfl

theorem parseValue_idem (v : Value) : parseValue (parseValue v) = parseValue v := by
  cases v with
  | str s => cases h : parseTimestamp s <;> simp [parseValue, h]
  | _ => simp [parseValue]

theorem parseValue_isDt_of_ne_null (v : Value) (h : parseValue v ≠ Value.null) :
    (parseValue v).isDt = true := by
  cases v with
  | str s =>
    cases hp : parseTimestamp s with
    | none => simp [parseValue, hp] at h
    | some d => simp [parseValue, hp, Value.isDt]
  | null => simp [parseValue] at h
  | _ => simp [parseValue, Value.isDt]

theorem dateValue_ne_null_of_isDt (v : Value) (h : v.isDt = true) :
    dateValue v ≠ Value.null := by
  cases v <;> simp_all [Value.isDt, dateValue]

theorem isDt_ne_null (v : Value) (h : v.isDt = true) : v ≠ Value.null := by
  cases v <;> simp_all [Value.isDt]

/-! ### Lemmas about the keep-first deduplication scan -/

section Dedup

variable {α κ : Type} (key : α → κ) [DecidableEq κ]

theorem dedupByKeyAux_sublist (seen : List κ) (l : List α) :
    (dedupByKeyAux key seen l).Sublist l := by
  induction l generalizing seen with
  | nil => simp [dedupByKeyAux]
  | cons a l ih =>
    simp only [dedupByKeyAux]
    split
    · exact (ih seen).cons a
    · exact (ih (key a :: seen)).cons₂ a

theorem dedupByKeyAux_not_seen (seen : List κ) (l : List α) :
    ∀ x ∈ dedupByKeyAux key seen l, key x ∉ seen := by
  induction l generalizing seen with
  | nil => simp [dedupByKeyAux]
  | cons a l ih =>
    intro x hx
    simp only [dedupByKeyAux] at hx
    split at hx
    · exact ih seen x hx
    · rcases List.mem_cons.mp hx with h | h
      · subst h; assumption
      · have := ih (key a :: seen) x h
        exact fun hs => this (List.mem_cons_of_mem _ hs)

theorem dedupByKeyAux_pairwise (seen : List κ) (l : List α) :
    (dedupByKeyAux key seen l).Pairwise (fun x y => key x ≠ key y) := by
  induction l generalizing seen with
  | nil => simp [dedupByKeyAux]
  | cons a l ih =>
    simp only [dedupByKeyAux]
    split
    · exact ih seen
    · refine List.Pairwise.cons ?_ (ih (key a :: seen))
      intro y hy
      have := dedupByKeyAux_not_seen key (key a :: seen) l y hy
      intro hk
      exact this (hk ▸ List.mem_cons_self _ _)

theorem dedupByKeyAux_exists_mem (seen : List κ) (l : List α) :
    ∀ x ∈ l, key x ∉ seen → ∃ y ∈ dedupByKeyAux key seen l, key y = key x := by
  induction l generalizing seen with
  | nil => simp
  | cons a l ih =>
    intro x hx hns
    simp only [dedupByKeyAux]
    split
    · rcases List.mem_cons.mp hx with h | h
      · subst h; exact absurd (by assumption) hns
      · exact ih seen x h hns
    · rcases List.mem_cons.mp hx with h | h
      · subst h
        exact ⟨x, List.mem_cons_self _ _, rfl⟩
      · by_cases hk : key x = key a
        · exact ⟨a, List.mem_cons_self _ _, hk.symm⟩
        · obtain ⟨y, hy, hky⟩ := ih (key a :: seen) x h (by
            intro hmem
            rcases List.mem_cons.mp hmem with h' | h'
            · exact hk h'
            · exact hns h')
          exact ⟨y, List.mem_cons_of_mem _ hy, hky⟩

theorem dedupByKeyAux_find? (seen : List κ) (l : List α) :
    ∀ y ∈ dedupByKeyAux key seen l,
      l.find? (fun b => decide (key b = key y)) = some y := by
  induction l generalizing seen with
  | nil => simp [dedupByKeyAux]
  | cons a l ih =>
    intro y hy
    simp only [dedupByKeyAux] at hy
    split at hy
    · have hne : key y ≠ key a := by
        intro h
        exact dedupByKeyAux_not_seen key seen l y hy (h ▸ (by assumption))
      rw [List.find?_cons_of_neg _ (by simpa using fun h => hne h.symm)]
      exact ih seen y hy
    · rcases List.mem_cons.mp hy with h | h
      · subst h
        exact List.find?_cons_of_pos _ (by simp)
      · have hns := dedupByKeyAux_not_seen key (key a :: seen) l y h
        have hne : key y ≠ key a := fun hk => hns (hk ▸ List.mem_cons_self _ _)
        rw [List.find?_cons_of_neg _ (by simpa using fun h => hne h.symm)]
        exact ih (key a :: seen) y h

theorem dedupByKeyAux_eq_self (seen : List κ) (l : List α)
    (hp : l.Pairwise (fun x y => key x ≠ key y)) (hs : ∀ x ∈ l, key x ∉ seen) :
    dedupByKeyAux key seen l = l := by
  induction l generalizing seen with
  | nil => simp [dedupByKeyAux]
  | cons a l ih =>
    have ha : key a ∉ seen := hs a (List.mem_cons_self _ _)
    simp only [dedupByKeyAux, if_neg ha]
    congr 1
    refine ih (key a :: seen) (List.Pairwise.of_cons hp) ?_
    intro x hx
    intro hmem
    rcases List.mem_cons.mp hmem with h' | h'
    · exact (List.rel_of_pairwise_cons hp hx) h'.symm
    · exact hs x (List.mem_cons_of_mem _ hx) h'

end Dedup

/-! ### Generic list helpers -/

theorem listMap_eq_self {α : Type} {l : List α} {f : α → α} (h : ∀ x ∈ l, f x = x) :
    l.map f = l := by
  induction l with
  | nil => rfl
  | cons a l ih =>
    simp only [List.map_cons, h a (List.mem_cons_self _ _)]
    rw [ih (fun x hx => h x (List.mem_cons_of_mem _ hx))]

theorem length_filter_add_length_filter_not {α : Type} (l : List α) (p : α → Bool) :
    (l.filter p).length + (l.filter (fun a => !(p a))).length = l.length := by
  induction l with
  | nil => rfl
  | cons a l ih => cases h : p a <;> simp [List.filter_cons, h] <;> omega

/-! ### Characterization of `clean_events` -/

theorem clean_events_ok (df : Table) (h1 : "user_id" ∈ df.cols)
    (h2 : "timestamp" ∈ df.cols) :
    clean_events df = Except.ok (⟨df.cols, cleanRows df⟩,
      ⟨df.rows.length,
       (df.rows.filter (fun r => decide (getVal df.cols r "user_id" = Value.null))).length,
       ((parsedRows df).filter (fun r => decide (getVal df.cols r "timestamp" = Value.null))).length,
       (keptTs df).length - (cleanRows df).length,
       (cleanRows df).length⟩) := by
  simp [clean_events, h1, h2]

theorem clean_events_ok_elim {df t : Table} {c : CleanCounts}
    (h : clean_events df = Except.ok (t, c)) :
    "user_id" ∈ df.cols ∧ "timestamp" ∈ df.cols ∧ t = ⟨df.cols, cleanRows df⟩ ∧
      c = ⟨df.rows.length,
        (df.rows.filter (fun r => decide (getVal df.cols r "user_id" = Value.null))).length,
        ((parsedRows df).filter (fun r => decide (getVal df.cols r "timestamp" = Value.null))).length,
        (keptTs df).length - (cleanRows df).length,
        (cleanRows df).length⟩ := by
  by_cases h1 : "user_id" ∈ df.cols
  · by_cases h2 : "timestamp" ∈ df.cols
    · rw [clean_events_ok df h1 h2] at h
      obtain ⟨ht, hc⟩ := Prod.mk.injEq .. ▸ Except.ok.inj h
      exact ⟨h1, h2, ht.symm, hc.symm⟩
    · simp [clean_events, h1, h2] at h
  · simp [clean_events, h1] at h

theorem mem_cleanRows (df : Table) {r : Row} (hr : r ∈ cleanRows df) :
    ∃ r0 ∈ df.rows, r = parseTsRow df.cols r0 ∧
      getVal df.cols r0 "user_id" ≠ Value.null ∧
      getVal df.cols r "timestamp" ≠ Value.null := by
  have h1 : r ∈ keptTs df := (dedupByKeyAux_sublist _ _ _).subset hr
  rw [keptTs, List.mem_filter] at h1
  obtain ⟨h2, h3⟩ := h1
  rw [parsedRows, List.mem_map] at h2
  obtain ⟨r0, hr0, hmap⟩ := h2
  rw [keptUid, List.mem_filter] at hr0
  exact ⟨r0, hr0.1, hmap.symm, by simpa using hr0.2, by simpa using h3⟩

theorem cleanRows_uid (df : Table) {r : Row} (hr : r ∈ cleanRows df) :
    getVal df.cols r "user_id" ≠ Value.null := by
  obtain ⟨r0, -, hmap, huid, -⟩ := mem_cleanRows df hr
  rw [hmap, parseTsRow, getVal_mapRow_other _ _ _ _ _ (by decide)]
  exact huid

theorem cleanRows_ts (df : Table) {r : Row} (hr : r ∈ cleanRows df) :
    (getVal df.cols r "timestamp").isDt = true := by
  obtain ⟨r0, -, hmap, -, hts⟩ := mem_cleanRows df hr
  rw [hmap, parseTsRow, getVal_mapRow_target _ parseValue_null] at hts ⊢
  exact parseValue_isDt_of_ne_null _ hts

theorem cleanRows_fixed (df : Table) {r : Row} (hr : r ∈ cleanRows df) :
    parseTsRow df.cols r = r := by
  obtain ⟨r0, -, hmap, -, -⟩ := mem_cleanRows df hr
  rw [hmap]
  simp only [parseTsRow]
  exact mapRow_mapRow _ (fun c v => by by_cases h : c = "timestamp" <;> simp [h, parseValue_idem])
    df.cols r0

/-! ### Claim theorems about the Cleaner -/

/-- Claim C1: after cleaning, no surviving row has a null `user_id`, every
surviving row's `timestamp` is a successfully parsed date-time value, and no
two surviving rows agree on all non-metadata (identity) columns. -/
theorem clean_events_invariants (df t : Table) (c : CleanCounts)
    (h : clean_events df = Except.ok (t, c)) :
    (∀ r ∈ t.rows, getVal t.cols r "user_id" ≠ Value.null) ∧
    (∀ r ∈ t.rows, (getVal t.cols r "timestamp").isDt = true) ∧
    t.rows.Pairwise (fun r1 r2 => dedupeKey t.cols r1 ≠ dedupeKey t.cols r2) := by
  obtain ⟨-, -, ht, -⟩ := clean_events_ok_elim h
  subst ht
  exact ⟨fun r hr => cleanRows_uid df hr, fun r hr => cleanRows_ts df hr,
    dedupByKeyAux_pairwise _ _ _⟩

/-- Witness for C1: the invariants instantiated on the spec's scenario
events table. -/
def exEvents : Table :=
  ⟨["user_id", "timestamp"],
   [[.int 1, .str "2024-01-01T10:00:00Z"],
    [.int 1, .str "2024-01-01T10:00:00Z"],
    [.null, .str "2024-01-02T00:00:00Z"],
    [.int 2, .str "not-a-date"]]⟩

def exUsers : Table :=
  ⟨["user_id", "country", "signup_date"],
   [[.int 1, .str "US", .str "2023-01-01"],
    [.int 2, .str "CA", .str "2023-02-01"]]⟩

def exClean : Table :=
  ⟨["user_id", "timestamp"],
   [[.int 1, .dt ⟨2024, 1, 1, 10, 0, 0⟩]]⟩

/-- Claim C5: the Cleaner is idempotent — applying `clean_events` to its own
output returns that output unchanged, with zero rows dropped at every
stage of the second run. -/
theorem clean_events_idempotent (df t : Table) (c : CleanCounts)
    (h : clean_events df = Except.ok (t, c)) :
    clean_events t = Except.ok (t, ⟨t.rows.length, 0, 0, 0, t.rows.length⟩) := by
  obtain ⟨h1, h2, ht, -⟩ := clean_events_ok_elim h
  subst ht
  have huid : ∀ r ∈ cleanRows df, getVal df.cols r "user_id" ≠ Value.null :=
    fun r hr => cleanRows_uid df hr
  have hts : ∀ r ∈ cleanRows df, getVal df.cols r "timestamp" ≠ Value.null :=
    fun r hr => isDt_ne_null _ (cleanRows_ts df hr)
  have hfix : ∀ r ∈ cleanRows df, parseTsRow df.cols r = r :=
    fun r hr => cleanRows_fixed df hr
  have e1 : keptUid ⟨df.cols, cleanRows df⟩ = cleanRows df := by
    rw [keptUid]
    exact List.filter_eq_self.mpr (fun r hr => by simpa using huid r hr)
  have e2 : parsedRows ⟨df.cols, cleanRows df⟩ = cleanRows df := by
    rw [parsedRows, e1]
    exact listMap_eq_self (fun r hr => hfix r hr)
  have e3 : keptTs ⟨df.cols, cleanRows df⟩ = cleanRows df := by
    rw [keptTs, e2]
    exact List.filter_eq_self.mpr (fun r hr => by simpa using hts r hr)
  have e4 : cleanRows ⟨df.cols, cleanRows df⟩ = cleanRows df := by
    rw [cleanRows, e3, dedupByKey]
    exact dedupByKeyAux_eq_self _ _ _
      (dedupByKeyAux_pairwise (dedupeKey df.cols) [] (keptTs df)) (by simp)
  have z1 : (cleanRows df).filter
      (fun r => decide (getVal df.cols r "user_id" = Value.null)) = [] := by
    rw [List.filter_eq_nil_iff]
    intro r hr
    simpa using huid r hr
  have z2 : (cleanRows df).filter
      (fun r => decide (getVal df.cols r "timestamp" = Value.null)) = [] := by
    rw [List.filter_eq_nil_iff]
    intro r hr
    simpa using hts r hr
  rw [clean_events_ok ⟨df.cols, cleanRows df⟩ h1 h2]
  simp only [e2, e3, e4, z1, z2]
  simp

theorem clean_events_invariants_witness :
    (∀ r ∈ exClean.rows, getVal exClean.cols r "user_id" ≠ Value.null) ∧
    (∀ r ∈ exClean.rows, (getVal exClean.cols r "timestamp").isDt = true) ∧
    exClean.rows.Pairwise (fun r1 r2 => dedupeKey exClean.cols r1 ≠ dedupeKey exClean.cols r2) :=
  clean_events_invariants exEvents exClean ⟨4, 1, 1, 1, 1⟩ (by decide)

/-- Witness for C5: idempotence instantiated on the scenario's cleaned
table. -/
theorem clean_events_idempotent_witness :
    clean_events exClean =
      Except.ok (exClean, ⟨exClean.rows.length, 0, 0, 0, exClean.rows.length⟩) :=
  clean_events_idempotent exEvents exClean ⟨4, 1, 1, 1, 1⟩ (by decide)

/-- Claim C8: `clean_events` raises a fatal error exactly when the input
lacks a `user_id` or `timestamp` column; with both present it returns a
table, and the row-level problems are handled by dropping and counting rows
only — the dropped counts and the surviving rows add up exactly to the
input size. -/
theorem clean_events_error_cases :
    (∀ df : Table, (∃ e, clean_events df = Except.error e) ↔
        ("user_id" ∉ df.cols ∨ "timestamp" ∉ df.cols)) ∧
    (∀ (df t : Table) (c : CleanCounts), clean_events df = Except.ok (t, c) →
        c.missingUser = (df.rows.filter
            (fun r => decide (getVal df.cols r "user_id" = Value.null))).length ∧
        c.invalidTs = ((parsedRows df).filter
            (fun r => decide (getVal df.cols r "timestamp" = Value.null))).length ∧
        t.rows.length + c.missingUser + c.invalidTs + c.deduped = df.rows.length) := by
  constructor
  · intro df
    by_cases h1 : "user_id" ∈ df.cols
    · by_cases h2 : "timestamp" ∈ df.cols
      · simp [clean_events, h1, h2]
      · simp [clean_events, h1, h2]
    · simp [clean_events, h1]
  · intro df t c h
    obtain ⟨h1, h2, ht, hc⟩ := clean_events_ok_elim h
    subst ht hc
    refine ⟨rfl, rfl, ?_⟩
    have a1 : (keptUid df).length +
        (df.rows.filter (fun r => decide (getVal df.cols r "user_id" = Value.null))).length
        = df.rows.length := by
      have hcongr : df.rows.filter
            (fun r => decide (getVal df.cols r "user_id" = Value.null))
          = df.rows.filter (fun r =>
              !(decide (getVal df.cols r "user_id" ≠ Value.null))) :=
        List.filter_congr (fun r _ => by simp)
      rw [keptUid, hcongr]
      exact length_filter_add_length_filter_not df.rows _
    have a2 : (parsedRows df).length = (keptUid df).length := by
      rw [parsedRows, List.length_map]
    have a3 : (keptTs df).length +
        ((parsedRows df).filter
          (fun r => decide (getVal df.cols r "timestamp" = Value.null))).length
        = (parsedRows df).length := by
      have hcongr : (parsedRows df).filter
            (fun r => decide (getVal df.cols r "timestamp" = Value.null))
          = (parsedRows df).filter (fun r =>
              !(decide (getVal df.cols r "timestamp" ≠ Value.null))) :=
        List.filter_congr (fun r _ => by simp)
      rw [keptTs, hcongr]
      exact length_filter_add_length_filter_not (parsedRows df) _
    have a4 : (cleanRows df).length ≤ (keptTs df).length :=
      (dedupByKeyAux_sublist _ _ _).length_le
    show (cleanRows df).length
        + (df.rows.filter (fun r => decide (getVal df.cols r "user_id" = Value.null))).length
        + ((parsedRows df).filter
            (fun r => decide (getVal df.cols r "timestamp" = Value.null))).length
        + ((keptTs df).length - (cleanRows df).length) = df.rows.length
    omega

/-! ### The deduplication step (Claim C6) -/

theorem getVal_cons (c : String) (cs : List String) (v : Value) (t : Row) (c0 : String) :
    getVal (c :: cs) (v :: t) c0 = if c0 = c then v else getVal cs t c0 := by
  by_cases h : c0 = c
  · subst h
    simp [getVal, List.lookup]
  · have hb : (c0 == c) = false := by simpa using h
    simp [getVal, List.zip, List.lookup, hb, h]

theorem dedupeKey_cons (c : String) (cs : List String) (v : Value) (t : Row) :
    dedupeKey (c :: cs) (v :: t) =
      if startsWithMeta c then dedupeKey cs t else v :: dedupeKey cs t := by
  by_cases h : startsWithMeta c = true <;> simp [dedupeKey, List.filter_cons, h]

/-- Two aligned rows agree on every identity column exactly when their
deduplication keys are equal: the key ignores metadata columns. -/
theorem dedupeKey_eq_iff (cols : List String) (r1 r2 : Row)
    (h1 : r1.length = cols.length) (h2 : r2.length = cols.length) (hn : cols.Nodup) :
    ((∀ c ∈ cols, startsWithMeta c = false → getVal cols r1 c = getVal cols r2 c) ↔
      dedupeKey cols r1 = dedupeKey cols r2) := by
  induction cols generalizing r1 r2 with
  | nil => simp [dedupeKey]
  | cons c cs ih =>
    cases r1 with
    | nil => simp at h1
    | cons v1 t1 =>
      cases r2 with
      | nil => simp at h2
      | cons v2 t2 =>
        simp only [List.length_cons, Nat.succ.injEq] at h1 h2
        have hcn : c ∉ cs := (List.nodup_cons.mp hn).1
        have hcs : cs.Nodup := (List.nodup_cons.mp hn).2
        have htail := ih t1 t2 h1 h2 hcs
        by_cases hm : startsWithMeta c = true
        · rw [dedupeKey_cons, dedupeKey_cons, if_pos hm, if_pos hm, ← htail]
          constructor
          · intro hall c0 hc0 hm0
            have hne : c0 ≠ c := fun he => hcn (he ▸ hc0)
            have := hall c0 (List.mem_cons_of_mem _ hc0) hm0
            rwa [getVal_cons, getVal_cons, if_neg hne, if_neg hne] at this
          · intro hall c0 hc0 hm0
            rcases List.mem_cons.mp hc0 with he | hc0'
            · subst he
              rw [hm0] at hm
              cases hm
            · have hne : c0 ≠ c := fun he => hcn (he ▸ hc0')
              rw [getVal_cons, getVal_cons, if_neg hne, if_neg hne]
              exact hall c0 hc0' hm0
        · rw [dedupeKey_cons, dedupeKey_cons, if_neg hm, if_neg hm]
          simp only [List.cons.injEq]
          rw [← htail]
          constructor
          · intro hall
            refine ⟨?_, ?_⟩
            · have := hall c (List.mem_cons_self _ _) (by simpa using hm)
              rwa [getVal_cons, getVal_cons, if_pos rfl, if_pos rfl] at this
            · intro c0 hc0 hm0
              have hne : c0 ≠ c := fun he => hcn (he ▸ hc0)
              have := hall c0 (List.mem_cons_of_mem _ hc0) hm0
              rwa [getVal_cons, getVal_cons, if_neg hne, if_neg hne] at this
          · rintro ⟨hv, hall⟩ c0 hc0 hm0
            rcases List.mem_cons.mp hc0 with he | hc0'
            · subst he
              rw [getVal_cons, getVal_cons, if_pos rfl, if_pos rfl]
              exact hv
            · have hne : c0 ≠ c := fun he => hcn (he ▸ hc0')
              rw [getVal_cons, getVal_cons, if_neg hne, if_neg hne]
              exact hall c0 hc0' hm0

/-- Claim C6: the deduplication step keeps, for every group of rows equal on
all identity columns, exactly the first occurrence in input order and
discards the rest; the grouping key ignores metadata columns entirely, so
rows differing only in metadata are still duplicates.  The result is a
sublist of the input, its keys are pairwise distinct, every input row's key
is represented, each kept row is the first input row with its key, and (for
aligned rows over duplicate-free columns) key equality is exactly
agreement on all non-`metadata.` columns. -/
theorem dedup_first_occurrence (cols : List String) (rows : List Row) :
    (dedupByKey (dedupeKey cols) rows).Sublist rows ∧
    (dedupByKey (dedupeKey cols) rows).Pairwise
      (fun r1 r2 => dedupeKey cols r1 ≠ dedupeKey cols r2) ∧
    (∀ r ∈ rows, ∃ r' ∈ dedupByKey (dedupeKey cols) rows,
        dedupeKey cols r' = dedupeKey cols r) ∧
    (∀ r' ∈ dedupByKey (dedupeKey cols) rows,
        rows.find? (fun r => decide (dedupeKey cols r = dedupeKey cols r')) = some r') ∧
    (∀ r1 r2 : Row, r1.length = cols.length → r2.length = cols.length → cols.Nodup →
      ((∀ c ∈ cols, startsWithMeta c = false → getVal cols r1 c = getVal cols r2 c) ↔
        dedupeKey cols r1 = dedupeKey cols r2)) := by
  refine ⟨dedupByKeyAux_sublist _ _ _, dedupByKeyAux_pairwise _ _ _, ?_, ?_, ?_⟩
  · intro r hr
    exact dedupByKeyAux_exists_mem _ _ _ r hr (by simp)
  · intro r' hr'
    exact dedupByKeyAux_find? _ _ _ r' hr'
  · intro r1 r2 h1 h2 hn
    exact dedupeKey_eq_iff cols r1 r2 h1 h2 hn

/-- Witness for C6: the dedup properties on a concrete table whose second
row differs from the first only in a metadata column. -/
def exDupCols : List String := ["user_id", "metadata.src"]

def exDupRows : List Row :=
  [[.int 1, .str "a"], [.int 1, .str "b"], [.int 2, .str "a"]]

theorem dedup_first_occurrence_witness :
    (dedupByKey (dedupeKey exDupCols) exDupRows).Sublist exDupRows ∧
    (dedupByKey (dedupeKey exDupCols) exDupRows).Pairwise
      (fun r1 r2 => dedupeKey exDupCols r1 ≠ dedupeKey exDupCols r2) ∧
    (∀ r ∈ exDupRows, ∃ r' ∈ dedupByKey (dedupeKey exDupCols) exDupRows,
        dedupeKey exDupCols r' = dedupeKey exDupCols r) ∧
    (∀ r' ∈ dedupByKey (dedupeKey exDupCols) exDupRows,
        exDupRows.find? (fun r => decide (dedupeKey exDupCols r = dedupeKey exDupCols r'))
          = some r') ∧
    (∀ r1 r2 : Row, r1.length = exDupCols.length → r2.length = exDupCols.length →
      exDupCols.Nodup →
      ((∀ c ∈ exDupCols, startsWithMeta c = false →
          getVal exDupCols r1 c = getVal exDupCols r2 c) ↔
        dedupeKey exDupCols r1 = dedupeKey exDupCols r2)) :=
  dedup_first_occurrence exDupCols exDupRows

/-! ### Lookup and column-assignment lemmas -/

theorem listMap_congr {α β : Type} {l : List α} {f g : α → β}
    (h : ∀ x ∈ l, f x = g x) : l.map f = l.map g := by
  induction l with
  | nil => rfl
  | cons a l ih =>
    simp only [List.map_cons, h a (List.mem_cons_self _ _)]
    rw [ih (fun x hx => h x (List.mem_cons_of_mem _ hx))]

theorem lookup_zip_eq_none (c : String) : ∀ (cols : List String) (r : Row), c ∉ cols →
    (cols.zip r).lookup c = none
  | [], _, _ => by simp [List.lookup]
  | _ :: _, [], _ => by simp [List.lookup]
  | c' :: cs, v :: vs, hc => by
    have hne : c ≠ c' := fun he => hc (by rw [he]; exact List.mem_cons_self _ _)
    have h1 : (c == c') = false := by simpa using hne
    simp only [List.zip_cons_cons, List.lookup, h1]
    exact lookup_zip_eq_none c cs vs (fun hm => hc (List.mem_cons_of_mem _ hm))

theorem lookup_zip_isSome (c : String) : ∀ (cols : List String) (r : Row), c ∈ cols →
    r.length = cols.length → ∃ v, (cols.zip r).lookup c = some v
  | [], _, hc, _ => absurd hc (List.not_mem_nil c)
  | _ :: _, [], _, hlen => by simp at hlen
  | c' :: cs, v :: vs, hc, hlen => by
    by_cases h : c = c'
    · subst h
      exact ⟨v, by simp [List.lookup]⟩
    · have hb : (c == c') = false := by simpa using h
      have hc' : c ∈ cs := by
        rcases List.mem_cons.mp hc with he | hm
        · exact absurd he h
        · exact hm
      have hlen' : vs.length = cs.length := by simpa using hlen
      obtain ⟨w, hw⟩ := lookup_zip_isSome c cs vs hc' hlen'
      refine ⟨w, ?_⟩
      rw [List.zip_cons_cons]
      simp only [List.lookup, hb]
      exact hw

theorem lookup_append (c : String) : ∀ (l1 l2 : List (String × Value)),
    (l1 ++ l2).lookup c = ((l1.lookup c).orElse (fun _ => l2.lookup c))
  | [], l2 => by simp [List.lookup, Option.orElse]
  | (k, v) :: l1, l2 => by
    cases hb : (c == k) with
    | true => simp [List.lookup, hb, Option.orElse]
    | false =>
      simp only [List.cons_append, List.lookup, hb]
      exact lookup_append c l1 l2

theorem getVal_setRowFn_self (cols : List String) (c : String) (w : Value) (r : Row)
    (hlen : r.length = cols.length) :
    getVal (setColCols cols c) (setRowFn cols c w r) c = w := by
  by_cases hc : c ∈ cols
  · rw [setColCols, if_pos hc, setRowFn, if_pos hc, getVal_mapRow]
    obtain ⟨v, hv⟩ := lookup_zip_isSome c cols r hc hlen
    simp [hv]
  · rw [setColCols, if_neg hc, setRowFn, if_neg hc, getVal,
      List.zip_append hlen.symm, lookup_append, lookup_zip_eq_none c cols r hc]
    simp [List.lookup, Option.orElse]

theorem getVal_setRowFn_other (cols : List String) (c : String) (w : Value) (r : Row)
    (c0 : String) (hne : c0 ≠ c) (hlen : r.length = cols.length) :
    getVal (setColCols cols c) (setRowFn cols c w r) c0 = getVal cols r c0 := by
  by_cases hc : c ∈ cols
  · rw [setColCols, if_pos hc, setRowFn, if_pos hc, getVal_mapRow]
    cases hl : (cols.zip r).lookup c0 <;> simp [getVal, hl, hne]
  · rw [setColCols, if_neg hc, setRowFn, if_neg hc, getVal, getVal,
      List.zip_append hlen.symm, lookup_append]
    have hz : List.lookup c0 ([c].zip [w]) = none := by
      have hb : (c0 == c) = false := by simpa using hne
      simp [List.zip_cons_cons, List.lookup, hb]
    rw [hz]
    cases hl : (cols.zip r).lookup c0 <;> simp [hl, Option.orElse]

theorem mem_setColCols_self (cols : List String) (c : String) : c ∈ setColCols cols c := by
  by_cases h : c ∈ cols <;> simp [setColCols, h]

theorem mem_setColCols_of_mem (cols : List String) (c c0 : String) (h : c0 ∈ cols) :
    c0 ∈ setColCols cols c := by
  by_cases hc : c ∈ cols <;> simp [setColCols, hc, h]

/-! ### Counting lemmas for the groupby -/

theorem filter_cons_pos {α : Type} (p : α → Bool) (a : α) (l : List α) (h : p a = true) :
    (a :: l).filter p = a :: l.filter p := by
  simp [List.filter_cons, h]

theorem filter_cons_neg {α : Type} (p : α → Bool) (a : α) (l : List α) (h : p a = false) :
    (a :: l).filter p = l.filter p := by
  simp [List.filter_cons, h]

theorem count_cons_ne {κ : Type} [BEq κ] [LawfulBEq κ] (x b : κ) (l : List κ) (h : x ≠ b) :
    (b :: l).count x = l.count x := by
  have hb : (x == b) = false := by simpa using h
  have hb2 : (b == x) = false := by simpa using fun he : b = x => h he.symm
  simp [List.count_cons, hb, hb2]

theorem length_filter_not_mem_cons {κ : Type} [DecidableEq κ] [BEq κ] [LawfulBEq κ]
    (ks seen : List κ) (a : κ)
    (ha : a ∉ seen) :
    (ks.filter (fun x => decide (x ∉ seen))).length
      = ks.count a + (ks.filter (fun x => decide (x ∉ a :: seen))).length := by
  induction ks with
  | nil => simp
  | cons b ks ih =>
    by_cases hb : b = a
    · subst hb
      rw [filter_cons_pos _ _ _ (by simpa using ha),
        filter_cons_neg _ _ _ (by simp),
        List.count_cons_self, List.length_cons]
      omega
    · rw [count_cons_ne a b ks (fun he => hb he.symm)]
      by_cases hbs : b ∈ seen
      · rw [filter_cons_neg _ _ _ (by simpa using hbs),
          filter_cons_neg _ _ _ (by simp [List.mem_cons, hb, hbs])]
        exact ih
      · rw [filter_cons_pos _ _ _ (by simpa using hbs),
          filter_cons_pos _ _ _ (by simp [List.mem_cons, hb, hbs]),
          List.length_cons, List.length_cons]
        omega

theorem dedupByKeyAux_id_count_sum {κ : Type} [DecidableEq κ] [BEq κ] [LawfulBEq κ]
    (seen ks : List κ) :
    ((dedupByKeyAux id seen ks).map (fun k => ks.count k)).sum
      = (ks.filter (fun x => decide (x ∉ seen))).length := by
  induction ks generalizing seen with
  | nil => simp [dedupByKeyAux]
  | cons a ks ih =>
    by_cases ha : a ∈ seen
    · rw [show dedupByKeyAux id seen (a :: ks) = dedupByKeyAux id seen ks by
        simp [dedupByKeyAux, ha]]
      have hmap : (dedupByKeyAux id seen ks).map (fun k => (a :: ks).count k)
          = (dedupByKeyAux id seen ks).map (fun k => ks.count k) :=
        listMap_congr (fun k hk => by
          have hns := dedupByKeyAux_not_seen id seen ks k hk
          exact count_cons_ne k a ks (fun he => hns (he ▸ ha)))
      rw [hmap, ih seen, filter_cons_neg _ _ _ (by simpa using ha)]
    · rw [show dedupByKeyAux id seen (a :: ks) = a :: dedupByKeyAux id (a :: seen) ks by
        simp [dedupByKeyAux, ha]]
      simp only [List.map_cons, List.sum_cons]
      have hmap : (dedupByKeyAux id (a :: seen) ks).map (fun k => (a :: ks).count k)
          = (dedupByKeyAux id (a :: seen) ks).map (fun k => ks.count k) :=
        listMap_congr (fun k hk => by
          have hns := dedupByKeyAux_not_seen id (a :: seen) ks k hk
          exact count_cons_ne k a ks (fun he => hns (he ▸ List.mem_cons_self _ _)))
      rw [hmap, ih (a :: seen), filter_cons_pos _ _ _ (by simpa using ha),
        List.count_cons_self, List.length_cons]
      have := length_filter_not_mem_cons ks seen a ha
      omega

/-! ### The Enricher (Claims C2, C7, C10) -/

theorem join_and_filter_ok (ev us : Table)
    (h1 : "user_id" ∈ ev.cols) (h2 : "user_id" ∈ us.cols)
    (h3 : "country" ∈ mergedCols ev.cols us.cols)
    (h4 : "signup_date" ∈ mergedCols ev.cols us.cols) :
    join_and_filter ev us = Except.ok
      (⟨mergedCols ev.cols us.cols,
        (usKept ev us).map (reparseSignupRow (mergedCols ev.cols us.cols))⟩,
       (joinedRows ev us).length - (usKept ev us).length) := by
  simp [join_and_filter, h1, h2, h3, h4]

theorem join_and_filter_ok_elim {ev us t : Table} {n : Nat}
    (h : join_and_filter ev us = Except.ok (t, n)) :
    "user_id" ∈ ev.cols ∧ "user_id" ∈ us.cols ∧
    "country" ∈ mergedCols ev.cols us.cols ∧
    "signup_date" ∈ mergedCols ev.cols us.cols ∧
    t = ⟨mergedCols ev.cols us.cols,
         (usKept ev us).map (reparseSignupRow (mergedCols ev.cols us.cols))⟩ ∧
    n = (joinedRows ev us).length - (usKept ev us).length := by
  by_cases h1 : "user_id" ∈ ev.cols
  · by_cases h2 : "user_id" ∈ us.cols
    · by_cases h3 : "country" ∈ mergedCols ev.cols us.cols
      · by_cases h4 : "signup_date" ∈ mergedCols ev.cols us.cols
        · rw [join_and_filter_ok ev us h1 h2 h3 h4] at h
          obtain ⟨ht, hn⟩ := Prod.mk.injEq .. ▸ Except.ok.inj h
          exact ⟨h1, h2, h3, h4, ht.symm, hn.symm⟩
        · simp [join_and_filter, h1, h2, h3, h4] at h
      · simp [join_and_filter, h1, h2, h3] at h
    · simp [join_and_filter, h1, h2] at h
  · simp [join_and_filter, h1] at h

/-- The per-event merge of the source equals the all-pairs join of the
spec's wording. -/
theorem joinedRows_eq_spec (ev us : Table) :
    joinedRows ev us =
      ((ev.rows.flatMap (fun e => us.rows.map (fun u => (e, u)))).filter (fun p =>
          decide (getVal ev.cols p.1 "user_id" = getVal us.cols p.2 "user_id"))).map
        (fun p => p.1 ++ dropUserCol us.cols p.2) := by
  rw [joinedRows]
  induction ev.rows with
  | nil => simp
  | cons e evrows ih =>
    simp only [List.flatMap_cons, List.filter_append, List.map_append]
    rw [ih, List.filter_map, List.map_map]
    have hp : us.rows.filter ((fun p : Row × Row =>
          decide (getVal ev.cols p.1 "user_id" = getVal us.cols p.2 "user_id")) ∘
            (fun u => (e, u)))
        = us.rows.filter (fun u =>
            decide (getVal us.cols u "user_id" = getVal ev.cols e "user_id")) :=
      List.filter_congr (fun u _ => by
        simp only [Function.comp]
        rw [decide_eq_decide]
        exact eq_comm)
    rw [hp]
    rfl

/-- Claim C2: the Enricher's output is exactly the spec's enrichment — the
inner join of events and users on `user_id` restricted to exactly the rows
whose `country` equals `"US"` (rows with no matching user are dropped by the
join), with `signup_date` normalized — and every output row's `country`
equals `"US"` exactly. -/
theorem enrich_matches_spec (ev us t : Table) (n : Nat)
    (h : join_and_filter ev us = Except.ok (t, n)) :
    t.rows = enrichSpecRows ev us ∧
    (∀ r ∈ t.rows, getVal t.cols r "country" = Value.str "US") := by
  obtain ⟨-, -, -, -, ht, -⟩ := join_and_filter_ok_elim h
  subst ht
  constructor
  · rw [enrichSpecRows]
    show (usKept ev us).map _ = _
    rw [usKept, joinedRows_eq_spec]
  · intro r hr
    rw [List.mem_map] at hr
    obtain ⟨j, hj, hrj⟩ := hr
    rw [usKept, List.mem_filter] at hj
    have hus : getVal (mergedCols ev.cols us.cols) j "country" = Value.str "US" := by
      simpa using hj.2
    rw [← hrj]
    show getVal (mergedCols ev.cols us.cols) _ "country" = Value.str "US"
    rw [reparseSignupRow, getVal_mapRow_other _ _ _ _ _ (by decide)]
    exact hus

def exEnriched : Table :=
  ⟨["user_id", "timestamp", "country", "signup_date"],
   [[.int 1, .dt ⟨2024, 1, 1, 10, 0, 0⟩, .str "US", .dt ⟨2023, 1, 1, 0, 0, 0⟩]]⟩

/-- Witness for C2: the spec correspondence on the scenario tables. -/
theorem enrich_matches_spec_witness :
    exEnriched.rows = enrichSpecRows exClean exUsers ∧
    (∀ r ∈ exEnriched.rows, getVal exEnriched.cols r "country" = Value.str "US") :=
  enrich_matches_spec exClean exUsers exEnriched 0 (by decide)

/-- Claim C7: in the Enricher, re-parsing `signup_date` never removes a row:
the output rows are exactly the filtered join rows with `signup_date`
re-parsed (so the counts agree), the re-parse changes no other column, and a
kept row whose `signup_date` is an unparseable string stays in the output
with a null `signup_date`. -/
theorem reparse_keeps_rows (ev us t : Table) (n : Nat)
    (h : join_and_filter ev us = Except.ok (t, n)) :
    t.rows = (usKept ev us).map (reparseSignupRow (mergedCols ev.cols us.cols)) ∧
    t.rows.length = (usKept ev us).length ∧
    (∀ (j : Row) (c : String), c ≠ "signup_date" →
        getVal (mergedCols ev.cols us.cols)
            (reparseSignupRow (mergedCols ev.cols us.cols) j) c
          = getVal (mergedCols ev.cols us.cols) j c) ∧
    (∀ j ∈ usKept ev us, ∀ s : String,
        getVal (mergedCols ev.cols us.cols) j "signup_date" = Value.str s →
        parseTimestamp s = none →
        reparseSignupRow (mergedCols ev.cols us.cols) j ∈ t.rows ∧
        getVal (mergedCols ev.cols us.cols)
            (reparseSignupRow (mergedCols ev.cols us.cols) j) "signup_date"
          = Value.null) := by
  obtain ⟨-, -, -, -, ht, -⟩ := join_and_filter_ok_elim h
  subst ht
  refine ⟨rfl, List.length_map _ _, ?_, ?_⟩
  · intro j c hc
    rw [reparseSignupRow]
    exact getVal_mapRow_other _ _ _ _ _ hc
  · intro j hj s hs hparse
    refine ⟨List.mem_map_of_mem _ hj, ?_⟩
    rw [reparseSignupRow, getVal_mapRow_target _ parseValue_null, hs]
    simp [parseValue, hparse]

/-- Witness for C7 on the scenario tables. -/
theorem reparse_keeps_rows_witness :
    exEnriched.rows = (usKept exClean exUsers).map
        (reparseSignupRow (mergedCols exClean.cols exUsers.cols)) ∧
    exEnriched.rows.length = (usKept exClean exUsers).length ∧
    (∀ (j : Row) (c : String), c ≠ "signup_date" →
        getVal (mergedCols exClean.cols exUsers.cols)
            (reparseSignupRow (mergedCols exClean.cols exUsers.cols) j) c
          = getVal (mergedCols exClean.cols exUsers.cols) j c) ∧
    (∀ j ∈ usKept exClean exUsers, ∀ s : String,
        getVal (mergedCols exClean.cols exUsers.cols) j "signup_date" = Value.str s →
        parseTimestamp s = none →
        reparseSignupRow (mergedCols exClean.cols exUsers.cols) j ∈ exEnriched.rows ∧
        getVal (mergedCols exClean.cols exUsers.cols)
            (reparseSignupRow (mergedCols exClean.cols exUsers.cols) j) "signup_date"
          = Value.null) :=
  reparse_keeps_rows exClean exUsers exEnriched 0 (by decide)

/-- Claim C10: a joined row whose `country` is null is removed by the
segment filter (null never equals `"US"`) and is counted together with all
other non-US rows in the single dropped-by-filter count; no output row has a
null `country`; and the Enricher fails only for missing columns, never
because of a null `country` value. -/
theorem null_country_filtered :
    (∀ (ev us t : Table) (n : Nat), join_and_filter ev us = Except.ok (t, n) →
        n = ((joinedRows ev us).filter (fun j =>
            decide (getVal (mergedCols ev.cols us.cols) j "country"
              ≠ Value.str "US"))).length ∧
        (∀ j ∈ joinedRows ev us,
            getVal (mergedCols ev.cols us.cols) j "country" = Value.null →
            j ∉ usKept ev us) ∧
        (∀ r ∈ t.rows, getVal t.cols r "country" ≠ Value.null)) ∧
    (∀ ev us : Table, (∃ e, join_and_filter ev us = Except.error e) ↔
        ("user_id" ∉ ev.cols ∨ "user_id" ∉ us.cols ∨
         "country" ∉ mergedCols ev.cols us.cols ∨
         "signup_date" ∉ mergedCols ev.cols us.cols)) := by
  constructor
  · intro ev us t n h
    obtain ⟨-, -, -, -, ht, hn⟩ := join_and_filter_ok_elim h
    refine ⟨?_, ?_, ?_⟩
    · have hcongr : (joinedRows ev us).filter (fun j =>
            decide (getVal (mergedCols ev.cols us.cols) j "country" ≠ Value.str "US"))
          = (joinedRows ev us).filter (fun j =>
              !(decide (getVal (mergedCols ev.cols us.cols) j "country" = Value.str "US"))) :=
        List.filter_congr (fun j _ => by simp)
      have hpart := length_filter_add_length_filter_not (joinedRows ev us)
        (fun j => decide (getVal (mergedCols ev.cols us.cols) j "country" = Value.str "US"))
      rw [hn, hcongr]
      have hk : (usKept ev us).length = ((joinedRows ev us).filter (fun j =>
          decide (getVal (mergedCols ev.cols us.cols) j "country" = Value.str "US"))).length :=
        rfl
      omega
    · intro j hj hnull hmem
      rw [usKept, List.mem_filter] at hmem
      have : getVal (mergedCols ev.cols us.cols) j "country" = Value.str "US" := by
        simpa using hmem.2
      rw [hnull] at this
      cases this
    · intro r hr
      subst ht
      rw [List.mem_map] at hr
      obtain ⟨j, hj, hrj⟩ := hr
      rw [usKept, List.mem_filter] at hj
      have hus : getVal (mergedCols ev.cols us.cols) j "country" = Value.str "US" := by
        simpa using hj.2
      rw [← hrj]
      show getVal (mergedCols ev.cols us.cols) _ "country" ≠ Value.null
      rw [reparseSignupRow, getVal_mapRow_other _ _ _ _ _ (by decide), hus]
      intro hcontra
      cases hcontra
  · intro ev us
    by_cases h1 : "user_id" ∈ ev.cols
    · by_cases h2 : "user_id" ∈ us.cols
      · by_cases h3 : "country" ∈ mergedCols ev.cols us.cols
        · by_cases h4 : "signup_date" ∈ mergedCols ev.cols us.cols
          · simp [join_and_filter, h1, h2, h3, h4]
          · simp [join_and_filter, h1, h2, h3, h4]
        · simp [join_and_filter, h1, h2, h3]
      · simp [join_and_filter, h1, h2]
    · simp [join_and_filter, h1]

/-- Witness for C10: the count and filter facts on the scenario tables, and
the error-iff at a users table with no `country` column. -/
theorem null_country_filtered_witness :
    ((0 : Nat) = ((joinedRows exClean exUsers).filter (fun j =>
        decide (getVal (mergedCols exClean.cols exUsers.cols) j "country"
          ≠ Value.str "US"))).length ∧
      (∀ j ∈ joinedRows exClean exUsers,
          getVal (mergedCols exClean.cols exUsers.cols) j "country" = Value.null →
          j ∉ usKept exClean exUsers) ∧
      (∀ r ∈ exEnriched.rows, getVal exEnriched.cols r "country" ≠ Value.null)) ∧
    ((∃ e, join_and_filter exClean ⟨["user_id"], []⟩ = Except.error e) ↔
      ("user_id" ∉ exClean.cols ∨ "user_id" ∉ (Table.mk ["user_id"] []).cols ∨
       "country" ∉ mergedCols exClean.cols (Table.mk ["user_id"] []).cols ∨
       "signup_date" ∉ mergedCols exClean.cols (Table.mk ["user_id"] []).cols)) :=
  ⟨null_country_filtered.1 exClean exUsers exEnriched 0 (by decide),
   null_country_filtered.2 exClean ⟨["user_id"], []⟩⟩

/-! ### The Aggregator (Claims C3, C9) and the scenario (Claim C4) -/

/-- Read an `event_count` cell as a number. -/
def countVal : Value → Nat
  | .int n => n.toNat
  | _ => 0

theorem create_daily_summary_ok (df : Table)
    (h1 : "timestamp" ∈ df.cols)
    (h2 : df.rows.all (fun r => (getVal df.cols r "timestamp").isDtOrNull) = true)
    (h3 : "user_id" ∈ (withEventDate df).cols) :
    create_daily_summary df = Except.ok (withEventDate df,
      ⟨summaryCols,
       (dedupByKey id (groupKeys (withEventDate df))).map
         (fun k => [k.1, k.2, Value.int ((groupKeys (withEventDate df)).count k)])⟩) := by
  simp [create_daily_summary, h1, h2, h3]

theorem create_daily_summary_ok_elim {df df2 s : Table}
    (h : create_daily_summary df = Except.ok (df2, s)) :
    "timestamp" ∈ df.cols ∧
    df.rows.all (fun r => (getVal df.cols r "timestamp").isDtOrNull) = true ∧
    "user_id" ∈ (withEventDate df).cols ∧
    df2 = withEventDate df ∧
    s = ⟨summaryCols,
         (dedupByKey id (groupKeys (withEventDate df))).map
           (fun k => [k.1, k.2, Value.int ((groupKeys (withEventDate df)).count k)])⟩ := by
  by_cases h1 : "timestamp" ∈ df.cols
  · by_cases h2 : df.rows.all (fun r => (getVal df.cols r "timestamp").isDtOrNull) = true
    · by_cases h3 : "user_id" ∈ (withEventDate df).cols
      · rw [create_daily_summary_ok df h1 h2 h3] at h
        obtain ⟨ha, hb⟩ := Prod.mk.injEq .. ▸ Except.ok.inj h
        exact ⟨h1, h2, h3, ha.symm, hb.symm⟩
      · simp [create_daily_summary, h1, h2, h3] at h
    · simp [create_daily_summary, h1, h2] at h
  · simp [create_daily_summary, h1] at h

theorem getVal_summary_ed (a b c : Value) : getVal summaryCols [a, b, c] "event_date" = a := by
  simp [summaryCols, getVal, List.lookup]

theorem getVal_summary_uid (a b c : Value) : getVal summaryCols [a, b, c] "user_id" = b := by
  have e1 : ("user_id" == "event_date") = false := by decide
  simp [summaryCols, getVal, List.lookup, e1]

theorem getVal_summary_cnt (a b c : Value) :
    getVal summaryCols [a, b, c] "event_count" = c := by
  have e1 : ("event_count" == "event_date") = false := by decide
  have e2 : ("event_count" == "user_id") = false := by decide
  simp [summaryCols, getVal, List.lookup, e1, e2]

theorem count_map_eq_length_filter {α β : Type} [BEq β] [LawfulBEq β] (f : α → β)
    (l : List α) (b : β) :
    (l.map f).count b = (l.filter (fun a => f a == b)).length := by
  induction l with
  | nil => rfl
  | cons a l ih =>
    by_cases h : f a = b
    · rw [List.map_cons, h, List.count_cons_self,
        filter_cons_pos _ _ _ (by simpa using h), List.length_cons, ih]
    · rw [List.map_cons, count_cons_ne b (f a) _ (fun he => h he.symm),
        filter_cons_neg _ _ _ (by simpa using h), ih]

/-- Claim C3: on an enriched table whose `timestamp` column holds parsed
date-times (and whose `user_id` values are non-null, as join output rows
are), the Aggregator emits exactly one row per distinct
`(event_date, user_id)` pair — no two summary rows share a pair and every
row's pair appears — each row's `event_count` is the exact number of
enriched rows sharing that pair, and the `event_count` values sum to the
number of enriched rows. -/
theorem daily_summary_counts (df df2 s : Table)
    (hwf : df.WF)
    (hdt : ∀ r ∈ df.rows, (getVal df.cols r "timestamp").isDt = true)
    (huid : ∀ r ∈ df.rows, getVal df.cols r "user_id" ≠ Value.null)
    (h : create_daily_summary df = Except.ok (df2, s)) :
    s.rows.Pairwise (fun r1 r2 =>
      ¬(getVal s.cols r1 "event_date" = getVal s.cols r2 "event_date" ∧
        getVal s.cols r1 "user_id" = getVal s.cols r2 "user_id")) ∧
    (∀ q ∈ df.rows, ∃ row ∈ s.rows,
        getVal s.cols row "event_date" = dateValue (getVal df.cols q "timestamp") ∧
        getVal s.cols row "user_id" = getVal df.cols q "user_id") ∧
    (∀ row ∈ s.rows, getVal s.cols row "event_count" =
        Value.int ((df.rows.filter (fun q =>
            decide (dateValue (getVal df.cols q "timestamp") = getVal s.cols row "event_date" ∧
              getVal df.cols q "user_id" = getVal s.cols row "user_id"))).length)) ∧
    (s.rows.map (fun row => countVal (getVal s.cols row "event_count"))).sum
      = df.rows.length := by
  obtain ⟨h1, h2, h3, hdf2, hs⟩ := create_daily_summary_ok_elim h
  have hscols : s.cols = summaryCols := by rw [hs]
  have hsrows : s.rows = (dedupByKey id (groupKeys (withEventDate df))).map
      (fun k => [k.1, k.2, Value.int ((groupKeys (withEventDate df)).count k)]) := by
    rw [hs]
  have hcols2 : (withEventDate df).cols = setColCols df.cols "event_date" := rfl
  have hrows2 : (withEventDate df).rows = df.rows.map (fun r =>
      setRowFn df.cols "event_date" (dateValue (getVal df.cols r "timestamp")) r) := rfl
  have g1 : ∀ q ∈ df.rows, getVal (withEventDate df).cols
      (setRowFn df.cols "event_date" (dateValue (getVal df.cols q "timestamp")) q)
        "event_date" = dateValue (getVal df.cols q "timestamp") := by
    intro q hq
    rw [hcols2]
    exact getVal_setRowFn_self df.cols "event_date" _ q (hwf q hq)
  have g2 : ∀ q ∈ df.rows, getVal (withEventDate df).cols
      (setRowFn df.cols "event_date" (dateValue (getVal df.cols q "timestamp")) q)
        "user_id" = getVal df.cols q "user_id" := by
    intro q hq
    rw [hcols2]
    exact getVal_setRowFn_other df.cols "event_date" _ q "user_id" (by decide) (hwf q hq)
  have kfact : groupKeys (withEventDate df)
      = df.rows.map (fun q =>
          (dateValue (getVal df.cols q "timestamp"), getVal df.cols q "user_id")) := by
    rw [groupKeys, hrows2, List.filter_map, List.map_map]
    have hfilter : df.rows.filter ((fun r2 =>
        decide (getVal (withEventDate df).cols r2 "event_date" ≠ Value.null ∧
                getVal (withEventDate df).cols r2 "user_id" ≠ Value.null)) ∘
          (fun r => setRowFn df.cols "event_date"
            (dateValue (getVal df.cols r "timestamp")) r)) = df.rows := by
      apply List.filter_eq_self.mpr
      intro q hq
      simp only [Function.comp, decide_eq_true_eq]
      constructor
      · rw [g1 q hq]
        exact dateValue_ne_null_of_isDt _ (hdt q hq)
      · rw [g2 q hq]
        exact huid q hq
    rw [hfilter]
    apply listMap_congr
    intro q hq
    simp only [Function.comp, summaryKey]
    rw [g1 q hq, g2 q hq]
  refine ⟨?_, ?_, ?_, ?_⟩
  · rw [hsrows, List.pairwise_map]
    refine (dedupByKeyAux_pairwise id _ _).imp ?_
    intro k1 k2 hne hcontra
    rw [hscols, getVal_summary_ed, getVal_summary_ed, getVal_summary_uid,
      getVal_summary_uid] at hcontra
    exact hne (Prod.ext hcontra.1 hcontra.2)
  · intro q hq
    have hk : (dateValue (getVal df.cols q "timestamp"), getVal df.cols q "user_id")
        ∈ groupKeys (withEventDate df) := by
      rw [kfact]
      exact List.mem_map_of_mem _ hq
    obtain ⟨y, hy, hkey⟩ := dedupByKeyAux_exists_mem id [] (groupKeys (withEventDate df))
      _ hk (by simp)
    refine ⟨[y.1, y.2, Value.int ((groupKeys (withEventDate df)).count y)], ?_, ?_, ?_⟩
    · rw [hsrows]
      exact List.mem_map_of_mem _ hy
    · rw [hscols, getVal_summary_ed]
      rw [show y = (dateValue (getVal df.cols q "timestamp"), getVal df.cols q "user_id")
        from hkey]
    · rw [hscols, getVal_summary_uid]
      rw [show y = (dateValue (getVal df.cols q "timestamp"), getVal df.cols q "user_id")
        from hkey]
  · intro row hrow
    rw [hsrows, List.mem_map] at hrow
    obtain ⟨k, hk, hrk⟩ := hrow
    obtain ⟨k1, k2⟩ := k
    rw [← hrk, hscols, getVal_summary_cnt, getVal_summary_ed, getVal_summary_uid]
    have hcnt : (groupKeys (withEventDate df)).count (k1, k2)
        = (df.rows.filter (fun q =>
            decide (dateValue (getVal df.cols q "timestamp") = k1 ∧
              getVal df.cols q "user_id" = k2))).length := by
      rw [kfact, count_map_eq_length_filter]
      refine congrArg List.length (List.filter_congr ?_)
      intro q hq
      rw [Bool.eq_iff_iff]
      simp [Prod.mk.injEq]
    rw [hcnt]
  · rw [hsrows, List.map_map]
    have hmap : (dedupByKey id (groupKeys (withEventDate df))).map
        ((fun row => countVal (getVal s.cols row "event_count")) ∘
          (fun k => [k.1, k.2, Value.int ((groupKeys (withEventDate df)).count k)]))
        = (dedupByKey id (groupKeys (withEventDate df))).map
            (fun k => (groupKeys (withEventDate df)).count k) := by
      apply listMap_congr
      intro k hk
      simp only [Function.comp]
      rw [hscols, getVal_summary_cnt]
      simp [countVal]
    rw [hmap, dedupByKey, dedupByKeyAux_id_count_sum]
    have hfil : (groupKeys (withEventDate df)).filter
        (fun x => decide (x ∉ ([] : List (Value × Value))))
        = groupKeys (withEventDate df) :=
      List.filter_eq_self.mpr (fun a _ => by simp)
    rw [hfil, kfact, List.length_map]

def exEnrichedMut : Table :=
  ⟨["user_id", "timestamp", "country", "signup_date", "event_date"],
   [[.int 1, .dt ⟨2024, 1, 1, 10, 0, 0⟩, .str "US", .dt ⟨2023, 1, 1, 0, 0, 0⟩,
     .date ⟨2024, 1, 1⟩]]⟩

def exSummary : Table :=
  ⟨["event_date", "user_id", "event_count"],
   [[.date ⟨2024, 1, 1⟩, .int 1, .int 1]]⟩

/-- Witness for C3 on the scenario's enriched table. -/
theorem daily_summary_counts_witness :
    exSummary.rows.Pairwise (fun r1 r2 =>
      ¬(getVal exSummary.cols r1 "event_date" = getVal exSummary.cols r2 "event_date" ∧
        getVal exSummary.cols r1 "user_id" = getVal exSummary.cols r2 "user_id")) ∧
    (∀ q ∈ exEnriched.rows, ∃ row ∈ exSummary.rows,
        getVal exSummary.cols row "event_date"
          = dateValue (getVal exEnriched.cols q "timestamp") ∧
        getVal exSummary.cols row "user_id" = getVal exEnriched.cols q "user_id") ∧
    (∀ row ∈ exSummary.rows, getVal exSummary.cols row "event_count" =
        Value.int ((exEnriched.rows.filter (fun q =>
            decide (dateValue (getVal exEnriched.cols q "timestamp")
                = getVal exSummary.cols row "event_date" ∧
              getVal exEnriched.cols q "user_id"
                = getVal exSummary.cols row "user_id"))).length)) ∧
    (exSummary.rows.map (fun row => countVal (getVal exSummary.cols row "event_count"))).sum
      = exEnriched.rows.length :=
  daily_summary_counts exEnriched exEnrichedMut exSummary
    (by decide) (by decide) (by decide) (by decide)

/-- Claim C9: `create_daily_summary` mutates the table passed to it, adding
an `event_date` column in place while keeping every existing column and all
rows; since the driver aggregates before writing, the persisted enriched
artifact carries the `event_date` column. -/
theorem aggregator_mutates_input :
    (∀ (df df2 s : Table), create_daily_summary df = Except.ok (df2, s) →
        "event_date" ∈ df2.cols ∧ (∀ c ∈ df.cols, c ∈ df2.cols) ∧
        df2.rows.length = df.rows.length) ∧
    (∀ (ev us we sm : Table), etlTransform ev us = Except.ok (we, sm) →
        "event_date" ∈ we.cols) := by
  constructor
  · intro df df2 s h
    obtain ⟨-, -, -, hdf2, -⟩ := create_daily_summary_ok_elim h
    subst hdf2
    exact ⟨mem_setColCols_self _ _, fun c hc => mem_setColCols_of_mem _ _ _ hc,
      List.length_map _ _⟩
  · intro ev us we sm h
    unfold etlTransform at h
    split at h
    · exact absurd h (by simp)
    · split at h
      · exact absurd h (by simp)
      · split at h
        · exact absurd h (by simp)
        · rename_i em daily hcds
          obtain ⟨hwe, -⟩ := Prod.mk.injEq .. ▸ Except.ok.inj h
          obtain ⟨-, -, -, hmut, -⟩ := create_daily_summary_ok_elim hcds
          rw [← hwe, hmut]
          exact mem_setColCols_self _ _

/-- Witness for C9: the mutation facts on the scenario's enriched table and
the full scenario pipeline. -/
theorem aggregator_mutates_input_witness :
    ("event_date" ∈ exEnrichedMut.cols ∧ (∀ c ∈ exEnriched.cols, c ∈ exEnrichedMut.cols) ∧
      exEnrichedMut.rows.length = exEnriched.rows.length) ∧
    "event_date" ∈ exEnrichedMut.cols :=
  ⟨aggregator_mutates_input.1 exEnriched exEnrichedMut exSummary (by decide),
   aggregator_mutates_input.2 exEvents exUsers exEnrichedMut exSummary (by decide)⟩

/-- Claim C4: on the spec's scenario input, cleaning drops the null-user
row, the unparseable-timestamp row and one duplicate (leaving the single
user-1 event), enrichment keeps that event with country `"US"` dropping
nothing, and the daily summary is exactly one row with
`event_date = 2024-01-01`, `user_id = 1`, `event_count = 1`. -/
theorem pipeline_scenario :
    clean_events exEvents = Except.ok (exClean, ⟨4, 1, 1, 1, 1⟩) ∧
    join_and_filter exClean exUsers = Except.ok (exEnriched, 0) ∧
    etlTransform exEvents exUsers = Except.ok (exEnrichedMut, exSummary) := by
  exact ⟨by decide, by decide, by decide⟩

/-- Witness for C8: the error-iff at a table missing `user_id`, and the
count conservation on the scenario events table. -/
theorem clean_events_error_cases_witness :
    ((∃ e, clean_events ⟨["timestamp"], []⟩ = Except.error e) ↔
      ("user_id" ∉ (Table.mk ["timestamp"] []).cols ∨
       "timestamp" ∉ (Table.mk ["timestamp"] []).cols)) ∧
    (exClean.rows.length + (1 : Nat) + (1 : Nat) + (1 : Nat) = exEvents.rows.length) := by
  refine ⟨clean_events_error_cases.1 ⟨["timestamp"], []⟩, ?_⟩
  have h := (clean_events_error_cases.2 exEvents exClean ⟨4, 1, 1, 1, 1⟩ (by decide)).2.2
  exact h
